import Mathlib

/- Verification development for the persistent CLI-agent session orchestrator
   in `commander/src-tauri`: the stream accumulator and output sanitizer
   (`src/services/cli_output_service.rs`), the session registry and lifecycle
   sweep, and the emission behaviour of the three launch paths
   (`src/commands/cli_commands.rs`).  Rust strings are modelled as lists of
   characters (`Str`); Rust `HashMap`s as association lists. -/

abbrev Str := List Char

/-- Rust `char::is_whitespace` (the Unicode White_Space property), used by
`str::trim`. -/
def isRustWhitespace (c : Char) : Bool :=
  let n := c.toNat
  decide ((9 ≤ n ∧ n ≤ 13) ∨ n = 32 ∨ n = 133 ∨ n = 160 ∨ n = 5760 ∨
    (8192 ≤ n ∧ n ≤ 8202) ∨ n = 8232 ∨ n = 8233 ∨ n = 8239 ∨ n = 8287 ∨ n = 12288)

/-- Rust `str::trim_start`. -/
def trimStartW (s : Str) : Str := s.dropWhile isRustWhitespace

/-- Rust `str::trim`: drop Unicode whitespace from both ends. -/
def trimW (s : Str) : Str :=
  ((s.dropWhile isRustWhitespace).reverse.dropWhile isRustWhitespace).reverse

/-- The two separator bytes recognised by `CodexStreamAccumulator::push_chunk`
(`b'\r' | b'\n'`, cli_output_service.rs line 72). -/
def isSep (c : Char) : Bool := c == '\r' || c == '\n'

/-- Rust `u8::to_ascii_lowercase` lifted to characters. -/
def asciiLower (c : Char) : Char :=
  if 65 ≤ c.toNat ∧ c.toNat ≤ 90 then Char.ofNat (c.toNat + 32) else c

/-- Rust `str::eq_ignore_ascii_case`. -/
def eqIgnoreAsciiCase (a b : Str) : Bool := a.map asciiLower == b.map asciiLower

def dataPfx : Str := ['d', 'a', 't', 'a', ':']

def eventPfx : Str := ['e', 'v', 'e', 'n', 't', ':']

def idPfx : Str := ['i', 'd', ':']

def doneTok : Str := ['[', 'D', 'O', 'N', 'E', ']']

/-- Model of `CodexStreamAccumulator::process_segment`
(cli_output_service.rs lines 110-130).  The Rust function pushes at most one
record onto `results`; here it returns that batch as a list. -/
def processSegment (segment : Str) : List Str :=
  let trimmed := trimW segment
  if trimmed.isEmpty then []
  else if dataPfx.isPrefixOf trimmed then
    let data := trimW (trimmed.drop dataPfx.length)
    if data.isEmpty || eqIgnoreAsciiCase data doneTok then [] else [data]
  else if eventPfx.isPrefixOf trimmed || idPfx.isPrefixOf trimmed then []
  else [trimmed]

/-- Model of `services/cli_output_service.rs` lines 48-51: the accumulator's only state
is the string buffer of not-yet-terminated output. -/
structure CodexStreamAccumulator where
  buffer : Str
deriving DecidableEq

def CodexStreamAccumulator.new : CodexStreamAccumulator := ⟨[]⟩

/-- The byte scan of `push_chunk` (lines 66-89), written as structural
recursion: `cur` is the current segment being built, reversed.  A separator
ends the current segment (emitted only when non-empty, mirroring
`if start < idx`); consecutive separators collapse because an empty `cur`
emits nothing.  Returns the complete segments in order plus the residue after
the last separator (the part the Rust code keeps in `self.buffer`). -/
def splitAux (cur : Str) : Str → List Str × Str
  | [] => ([], cur.reverse)
  | c :: rest =>
    if isSep c then
      match cur with
      | [] => splitAux [] rest
      | _ :: _ => (cur.reverse :: (splitAux [] rest).1, (splitAux [] rest).2)
    else splitAux (c :: cur) rest

/-- Model of `CodexStreamAccumulator::push_chunk` (lines 58-97): append the chunk to
the buffer, emit `process_segment` of every complete segment, keep the
residue after the last separator buffered. -/
def pushChunk (acc : CodexStreamAccumulator) (chunk : Str) :
    List Str × CodexStreamAccumulator :=
  if chunk.isEmpty then ([], acc)
  else
    let scan := splitAux [] (acc.buffer ++ chunk)
    (scan.1.flatMap processSegment, ⟨scan.2⟩)

/-- Model of `CodexStreamAccumulator::flush` (lines 99-108): empty buffer gives
nothing; otherwise the drained buffer goes through `process_segment` and the
last pushed record (`results.pop()`) is returned. -/
def flush (acc : CodexStreamAccumulator) : Option Str × CodexStreamAccumulator :=
  if acc.buffer.isEmpty then (none, acc)
  else ((processSegment acc.buffer).getLast?, ⟨[]⟩)

/-- Feeding a list of chunks one `push_chunk` call at a time, concatenating
the emitted records. -/
def pushMany (acc : CodexStreamAccumulator) :
    List Str → List Str × CodexStreamAccumulator
  | [] => ([], acc)
  | c :: cs =>
    let first := pushChunk acc c
    let rest := pushMany first.2 cs
    (first.1 ++ rest.1, rest.2)

/-- The full record sequence of a run: every record emitted by the
`push_chunk` calls, then the record (if any) emitted by the final `flush`. -/
def runRecords (chunks : List Str) : List Str :=
  let run := pushMany CodexStreamAccumulator.new chunks
  run.1 ++ (flush run.2).1.toList

-- ## Output sanitizer (`sanitize_cli_output_line`, cli_output_service.rs lines 1-40)

/-- Rust `str::contains(needle)`: substring occurrence. -/
def containsSub (hay needle : Str) : Bool := decide (needle <:+: hay)

def escChar : Char := Char.ofNat 27

def aposChar : Char := Char.ofNat 39

def nodeTraceWarnS : String := "(Use `node --trace-warnings ...` to show where the warning was created)"

def nodeTraceWarn : Str := nodeTraceWarnS.toList

def nodeColonPfxS : String := "(node:"

def nodeColonPfx : Str := nodeColonPfxS.toList

def circDepSufS : String := "inside circular dependency"

def circDepSuf : Str := circDepSufS.toList

def warnAccessPreS : String := "Warning: Accessing non-existent property "

def linenoTok : Str :=
  warnAccessPreS.toList ++ [aposChar] ++ ['l', 'i', 'n', 'e', 'n', 'o'] ++ [aposChar]

def filenameTok : Str :=
  warnAccessPreS.toList ++ [aposChar] ++ ['f', 'i', 'l', 'e', 'n', 'a', 'm', 'e'] ++ [aposChar]

def typeKeyS : String := "\"type\""

def typeKey : Str := typeKeyS.toList

def mcpCommandsKeyS : String := "\"mcp_commands\""

def mcpCommandsKey : Str := mcpCommandsKeyS.toList

def mcpServersKeyS : String := "\"mcp_servers\""

def mcpServersKey : Str := mcpServersKeyS.toList

def sessionIdKeyS : String := "\"session_id\""

def sessionIdKey : Str := sessionIdKeyS.toList

def uuidKeyS : String := "\"uuid\""

def uuidKey : Str := uuidKeyS.toList

def q25hTok : Str := ['?', '2', '5', 'h']

def codexAgent : Str := ['c', 'o', 'd', 'e', 'x']

def claudeAgent : Str := ['c', 'l', 'a', 'u', 'd', 'e']

def geminiAgent : Str := ['g', 'e', 'm', 'i', 'n', 'i']

/-- Model of `sanitize_cli_output_line(agent, line)` (cli_output_service.rs lines
1-40).  Each Rust early `return None` becomes a `none` branch; the fall
through returns `Some(line.to_string())`, the input line unchanged.  The Rust
code tests `starts_with("\u{001b}")` and `starts_with("\x1b")`, which are the
same escape character, so one test models both. -/
def sanitize_cli_output_line (agent lineIn : Str) : Option Str :=
  let trimmed := trimW lineIn
  if eqIgnoreAsciiCase agent codexAgent &&
      (trimmed == nodeTraceWarn ||
        (nodeColonPfx.isPrefixOf trimmed && circDepSuf.isSuffixOf trimmed &&
          (containsSub trimmed linenoTok || containsSub trimmed filenameTok))) then
    none
  else if eqIgnoreAsciiCase agent claudeAgent then
    if ['{'].isPrefixOf trimmed && ['}'].isSuffixOf trimmed &&
        !containsSub trimmed typeKey &&
        (containsSub trimmed mcpCommandsKey || containsSub trimmed mcpServersKey ||
          containsSub trimmed sessionIdKey || containsSub trimmed uuidKey) then
      none
    else if [escChar].isPrefixOf trimmed then
      none
    else if trimmed.isEmpty || trimmed == doneTok || trimmed == q25hTok then
      none
    else
      some lineIn
  else
    some lineIn

-- ## Session registry (`commands/cli_commands.rs`)

/-- Model of `models/session.rs`: the serialisable session record (fields the registry
code reads). -/
structure CLISession where
  id : Str
  agent : Str
  command : Str
  working_dir : Option Str
  is_active : Bool
  created_at : Int
  last_activity : Int
deriving DecidableEq

/-- Model of `commands/cli_commands.rs` lines 62-67: runtime companion of a session.
`process` is the lock-guarded `Option<Child>` (`some ()` while a child handle
is still present); `stdin_sender` is the optional input channel, carrying
whether the receiving end is still alive (an `UnboundedSender::send` fails
exactly when the receiver was dropped). -/
structure ActiveSession where
  session : CLISession
  process : Option Unit
  stdin_sender : Option Bool
deriving DecidableEq

/-- The two global registry maps (lines 54-59): `SESSIONS` maps session id to
`ActiveSession`; `SESSION_INDEX` maps the `agent:working_dir` key to a
session id.  `HashMap`s are modelled as association lists. -/
structure RegistryState where
  sessions : List (Str × ActiveSession)
  index : List (Str × Str)
deriving DecidableEq

def RegistryState.init : RegistryState := ⟨[], []⟩

/-- Association-list lookup (`HashMap::get`). -/
def lookupA {α : Type} (k : Str) : List (Str × α) → Option α
  | [] => none
  | p :: r => if p.1 = k then some p.2 else lookupA k r

/-- Association-list removal (`HashMap::remove`). -/
def removeA {α : Type} (k : Str) (l : List (Str × α)) : List (Str × α) :=
  l.filter (fun p => decide (p.1 ≠ k))

/-- Model of `generate_session_key` (lines 93-98). -/
def generate_session_key (agent : Str) (working_dir : Option Str) : Str :=
  match working_dir with
  | some dir => agent ++ ':' :: dir
  | none => agent

/-- Model of `get_agent_quit_command` (lines 100-107). -/
def get_agent_quit_command (agent : Str) : Str :=
  if agent = claudeAgent then ['/', 'q', 'u', 'i', 't']
  else if agent = codexAgent then ['/', 'e', 'x', 'i', 't']
  else if agent = geminiAgent then ['/', 'q', 'u', 'i', 't']
  else ['/', 'q', 'u', 'i', 't']

/-- Side effects of the termination path, in the order they are performed on
the session's process. -/
inductive SessionAction where
  | sendQuit (id : Str) (cmd : Str)
  | kill (id : Str)
deriving DecidableEq

/-- Rust `Result<(), String>`. -/
abbrev RustResult := Except Str Unit

def notFoundMsg : Str :=
  ['S', 'e', 's', 's', 'i', 'o', 'n', ' ', 'n', 'o', 't', ' ', 'f', 'o', 'u', 'n', 'd']

def stdinUnavailableMsgS : String := "Session stdin not available"

def stdinUnavailableMsg : Str := stdinUnavailableMsgS.toList

def sendQuitFailMsgS : String := "Failed to send quit command: channel closed"

def sendQuitFailMsg : Str := sendQuitFailMsgS.toList

/-- The `agent:working_dir` index key of a registry entry. -/
def keyOfEntry (p : Str × ActiveSession) : Str :=
  generate_session_key p.2.session.agent p.2.session.working_dir

/-- The process-side actions `terminate_session_process` performs on one
registry entry, in order: the quit command is sent only when an stdin
channel exists (lines 346-352), then the process handle, if still present,
is taken and killed (lines 355-358). -/
def quitKillActs (p : Str × ActiveSession) : List SessionAction :=
  (match p.2.stdin_sender with
    | some _ => [SessionAction.sendQuit p.1
        (get_agent_quit_command p.2.session.agent ++ ['\n'])]
    | none => []) ++
  (match p.2.process with
    | some _ => [SessionAction.kill p.1]
    | none => [])

/-- Model of `terminate_session_process` (lines 329-362): remove the session from
`SESSIONS`; when it was present, also remove its `agent:working_dir` key from
`SESSION_INDEX`, send the agent quit command down the stdin channel if one
exists, then take and kill the process handle if still present.  Every exit
returns `Ok(())`.  Returns (result, new state, process-side actions). -/
def terminate_session_process (st : RegistryState) (session_id : Str) :
    RustResult × RegistryState × List SessionAction :=
  match lookupA session_id st.sessions with
  | none => (Except.ok (), st, [])
  | some s =>
    let sessions2 := removeA session_id st.sessions
    let key := generate_session_key s.session.agent s.session.working_dir
    let index2 := removeA key st.index
    (Except.ok (), ⟨sessions2, index2⟩, quitKillActs (session_id, s))

/-- Model of `SESSION_TIMEOUT_SECONDS` (line 52). -/
def SESSION_TIMEOUT_SECONDS : Int := 1800

/-- The sweep's expiry test (line 373):
`current_time - session.last_activity > SESSION_TIMEOUT_SECONDS`. -/
def isExpired (t : Int) (p : Str × ActiveSession) : Bool :=
  decide (t - p.2.session.last_activity > SESSION_TIMEOUT_SECONDS)

/-- Model of `cleanup_inactive_sessions` (lines 364-384) at current time `t`: collect
the ids of sessions whose `last_activity` is more than the timeout before
`t`, then terminate each in turn, discarding individual results.  The
iteration order of the Rust `HashMap` is modelled by the list order. -/
def cleanup_inactive_sessions (st : RegistryState) (t : Int) :
    RustResult × RegistryState × List SessionAction :=
  let expired := (st.sessions.filter (isExpired t)).map (fun p => p.1)
  let final := expired.foldl
    (fun acc id =>
      let step := terminate_session_process acc.1 id
      (step.2.1, acc.2 ++ step.2.2))
    (st, [])
  (Except.ok (), final.1, final.2)

/-- Model of `get_sessions_status` (lines 1261-1273). -/
def get_sessions_status (st : RegistryState) : List CLISession × Nat :=
  let active := st.sessions.map (fun p => p.2.session)
  (active, active.length)

/-- Model of `terminate_session_by_id` (lines 1275-1277) is `terminate_session_process`. -/
def terminate_session_by_id (st : RegistryState) (session_id : Str) :
    RustResult × RegistryState × List SessionAction :=
  terminate_session_process st session_id

/-- Model of `terminate_all_active_sessions` (lines 1279-1290). -/
def terminate_all_active_sessions (st : RegistryState) :
    RustResult × RegistryState × List SessionAction :=
  let ids := st.sessions.map (fun p => p.1)
  let final := ids.foldl
    (fun acc id =>
      let step := terminate_session_process acc.1 id
      (step.2.1, acc.2 ++ step.2.2))
    (st, [])
  (Except.ok (), final.1, final.2)

/-- Model of `send_quit_to_session` (lines 1292-1309): error when the id is unknown or
the session has no stdin channel; otherwise forward the quit command, which
fails when the channel is closed. -/
def send_quit_to_session (st : RegistryState) (session_id : Str) :
    RustResult × List SessionAction :=
  match lookupA session_id st.sessions with
  | none => (Except.error notFoundMsg, [])
  | some s =>
    match s.stdin_sender with
    | none => (Except.error stdinUnavailableMsg, [])
    | some alive =>
      if alive then
        (Except.ok (), [SessionAction.sendQuit session_id
          (get_agent_quit_command s.session.agent ++ ['\n'])])
      else
        (Except.error sendQuitFailMsg, [])

/-- The registry-touching operations of `cli_commands.rs`.
`execute_persistent_cli_command` (lines 743-1107) spawns a child process and
streams its output but never locks `SESSIONS` or `SESSION_INDEX` (no insert
into either map occurs anywhere in the module), so as an action on the
registry it is the identity. -/
inductive RegistryOp where
  | executePersistent
  | terminate (id : Str)
  | cleanup (t : Int)
  | terminateAll
  | sendQuit (id : Str)
  | getStatus
deriving DecidableEq

/-- Effect of one operation on the registry maps. -/
def stepOp (st : RegistryState) : RegistryOp → RegistryState
  | RegistryOp.executePersistent => st
  | RegistryOp.terminate id => (terminate_session_process st id).2.1
  | RegistryOp.cleanup t => (cleanup_inactive_sessions st t).2.1
  | RegistryOp.terminateAll => (terminate_all_active_sessions st).2.1
  | RegistryOp.sendQuit _ => st
  | RegistryOp.getStatus => st

/-- A reachable registry state: the fold of any operation sequence from the
initially empty maps. -/
def runOps (ops : List RegistryOp) : RegistryState :=
  ops.foldl stepOp RegistryState.init

def sweepWd : Str := ['w']

/-- An expired session (`last_activity = 0`) with no stdin channel. -/
def sessExpiredA : ActiveSession :=
  ⟨⟨['A'], codexAgent, [], some sweepWd, true, 0, 0⟩, some (), none⟩

/-- A fresh session (`last_activity = 10000`) sharing the same
`agent:working_dir` pair. -/
def sessFreshB : ActiveSession :=
  ⟨⟨['B'], codexAgent, [], some sweepWd, true, 0, 10000⟩, some (), some true⟩

def sweepKey : Str := codexAgent ++ ':' :: sweepWd

/-- Registry holding the expired session `A` and the fresh session `B` with
the same session key; the index entry for that key maps to `B`. -/
def cexSweepState : RegistryState :=
  ⟨[(['A'], sessExpiredA), (['B'], sessFreshB)], [(sweepKey, ['B'])]⟩

-- ## StreamChunk emission of the three launch paths

/-- Model of `models/ai_agent.rs` lines 68-72. -/
structure StreamChunk where
  session_id : Str
  content : Str
  finished : Bool
deriving DecidableEq

/-- One blocking `read` outcome in a byte-read loop: a decoded text chunk
(`Ok(n)` with `n > 0`), or an I/O error with its display text.  `Ok(0)`
(end of file) is modelled by the end of the event list. -/
inductive ReadEvent where
  | chunk (text : Str)
  | ioError (msg : Str)
deriving DecidableEq

/-- A child's exit status as the launch paths consume it: `success()` and
`code()` (`None` when killed by a signal). -/
structure ExitStatusM where
  success : Bool
  code : Option Int
deriving DecidableEq

/-- Rust `str::split_inclusive(['\n', '\r'])`: split after every separator,
keeping it; a trailing run without separator is kept as the last piece. -/
def splitInclusive : Str → List Str :=
  splitInclusiveAux []
where
  splitInclusiveAux (cur : Str) : Str → List Str
    | [] => if cur.isEmpty then [] else [cur.reverse]
    | c :: rest =>
      if isSep c then (c :: cur).reverse :: splitInclusiveAux [] rest
      else splitInclusiveAux (c :: cur) rest

/-- Rust `str::trim_end_matches(['\n', '\r'])`. -/
def trimEndSeps (s : Str) : Str := (s.reverse.dropWhile isSep).reverse

def ptyReadErrPreS : String := "\n❌ PTY read error: "

def ptyReadErrPre : Str := ptyReadErrPreS.toList

def ptyFailContentS : String := "\n❌ Command failed with status\n"

/-- The PTY failure summary (cli_commands.rs line 524): a constant string,
carrying no exit code. -/
def ptyFailContent : Str := ptyFailContentS.toList

/-- The read loop of `try_spawn_with_pty` (lines 452-501).  For the codex
agent each chunk goes through the accumulator and the sanitizer and is
emitted verbatim; for other agents the text is split inclusively on
separators, trimmed of trailing separators, dropped when empty, sanitized,
and emitted with a trailing newline.  An I/O error emits one non-terminal
error chunk and breaks the loop. -/
def ptyLoop (agent sid : Str) (acc : CodexStreamAccumulator) :
    List ReadEvent → List StreamChunk × CodexStreamAccumulator
  | [] => ([], acc)
  | ReadEvent.chunk text :: rest =>
    if eqIgnoreAsciiCase agent codexAgent then
      let step := pushChunk acc text
      let emitted := step.1.filterMap (fun seg =>
        (sanitize_cli_output_line agent seg).map
          (fun f => StreamChunk.mk sid f false))
      let cont := ptyLoop agent sid step.2 rest
      (emitted ++ cont.1, cont.2)
    else
      let emitted := (splitInclusive text).filterMap (fun ln =>
        let t := trimEndSeps ln
        if t.isEmpty then none
        else (sanitize_cli_output_line agent t).map
          (fun f => StreamChunk.mk sid (f ++ ['\n']) false))
      let cont := ptyLoop agent sid acc rest
      (emitted ++ cont.1, cont.2)
  | ReadEvent.ioError msg :: _ =>
    ([StreamChunk.mk sid (ptyReadErrPre ++ msg ++ ['\n']) false], acc)

/-- The terminal chunk of the PTY path (lines 521-533): empty content on
success, the constant failure message otherwise. -/
def ptyFinalChunk (sid : Str) (success : Bool) : StreamChunk :=
  StreamChunk.mk sid (if success then [] else ptyFailContent) true

/-- The whole emission sequence of one `try_spawn_with_pty` run that reaches
`child.wait()` successfully: the read loop, the codex flush of the leftover
buffer (lines 507-520), then the single terminal chunk. -/
def ptyTrace (agent sid : Str) (events : List ReadEvent) (success : Bool) :
    List StreamChunk :=
  let run := ptyLoop agent sid CodexStreamAccumulator.new events
  let flushed :=
    if eqIgnoreAsciiCase agent codexAgent then
      match (flush run.2).1 with
      | some rem =>
        match sanitize_cli_output_line agent rem with
        | some f => [StreamChunk.mk sid f false]
        | none => []
      | none => []
    else []
  run.1 ++ flushed ++ [ptyFinalChunk sid success]

def errPreS : String := "ERROR: "

def errPre : Str := errPreS.toList

/-- The post-loop flush emission of the codex stdout drain (lines 955-966):
it runs after the loop exits, whether by end of file or by the error
`break`, and emits the sanitized leftover record verbatim when the buffer
was non-empty. -/
def pipeOutFlush (agent sid : Str) (acc : CodexStreamAccumulator) :
    List StreamChunk :=
  match (flush acc).1 with
  | some rem =>
    match sanitize_cli_output_line agent rem with
    | some f => [StreamChunk.mk sid f false]
    | none => []
  | none => []

/-- The pipe-path stdout drain for the codex agent (lines 919-966): a byte
loop through accumulator and sanitizer, emitting records verbatim; an I/O
error emits one `ERROR:` chunk and breaks the loop; either way the
post-loop flush emission follows. -/
def pipeOutCodex (agent sid : Str) (acc : CodexStreamAccumulator) :
    List ReadEvent → List StreamChunk
  | [] => pipeOutFlush agent sid acc
  | ReadEvent.chunk text :: rest =>
    let step := pushChunk acc text
    let emitted := step.1.filterMap (fun seg =>
      (sanitize_cli_output_line agent seg).map
        (fun f => StreamChunk.mk sid f false))
    emitted ++ pipeOutCodex agent sid step.2 rest
  | ReadEvent.ioError msg :: _ =>
    StreamChunk.mk sid (errPre ++ msg ++ ['\n']) false :: pipeOutFlush agent sid acc

/-- The pipe-path stdout drain for non-codex agents (lines 967-983): one
sanitized line per `next_line`, emitted with a trailing newline. -/
def pipeOutLines (agent sid : Str) (lines : List Str) : List StreamChunk :=
  lines.filterMap (fun ln =>
    (sanitize_cli_output_line agent ln).map
      (fun f => StreamChunk.mk sid (f ++ ['\n']) false))

/-- The post-loop flush emission of the codex stderr drain (lines
1029-1040): as for stdout it runs after end of file or after the error
`break`, with the leftover record wrapped in `ERROR: …\n`. -/
def pipeErrFlush (agent sid : Str) (acc : CodexStreamAccumulator) :
    List StreamChunk :=
  match (flush acc).1 with
  | some rem =>
    match sanitize_cli_output_line agent rem with
    | some f => [StreamChunk.mk sid (errPre ++ f ++ ['\n']) false]
    | none => []
  | none => []

/-- The pipe-path stderr drain for the codex agent (lines 993-1040):
as stdout but every record is wrapped in `ERROR: …\n`; the post-loop flush
emission follows the loop whether it ends by end of file or by the error
`break`. -/
def pipeErrCodex (agent sid : Str) (acc : CodexStreamAccumulator) :
    List ReadEvent → List StreamChunk
  | [] => pipeErrFlush agent sid acc
  | ReadEvent.chunk text :: rest =>
    let step := pushChunk acc text
    let emitted := step.1.filterMap (fun seg =>
      (sanitize_cli_output_line agent seg).map
        (fun f => StreamChunk.mk sid (errPre ++ f ++ ['\n']) false))
    emitted ++ pipeErrCodex agent sid step.2 rest
  | ReadEvent.ioError msg :: _ =>
    StreamChunk.mk sid (errPre ++ msg ++ ['\n']) false :: pipeErrFlush agent sid acc

/-- The pipe-path stderr drain for non-codex agents (lines 1041-1057). -/
def pipeErrLines (agent sid : Str) (lines : List Str) : List StreamChunk :=
  lines.filterMap (fun ln =>
    (sanitize_cli_output_line agent ln).map
      (fun f => StreamChunk.mk sid (errPre ++ f ++ ['\n']) false))

/-- Stdout reader trace of the pipe path: byte events for codex, lines
otherwise. -/
def pipeStdoutTrace (agent sid : Str) (events : List ReadEvent)
    (lines : List Str) : List StreamChunk :=
  if eqIgnoreAsciiCase agent codexAgent then
    pipeOutCodex agent sid CodexStreamAccumulator.new events
  else
    pipeOutLines agent sid lines

/-- Stderr reader trace of the pipe path. -/
def pipeStderrTrace (agent sid : Str) (events : List ReadEvent)
    (lines : List Str) : List StreamChunk :=
  if eqIgnoreAsciiCase agent codexAgent then
    pipeErrCodex agent sid CodexStreamAccumulator.new events
  else
    pipeErrLines agent sid lines

def pipeFailPreS : String := "\n❌ Command failed with exit code: "

def pipeFailPre : Str := pipeFailPreS.toList

def processErrPreS : String := "❌ Process error: "

def processErrPre : Str := processErrPreS.toList

/-- The pipe-path waiter's terminal chunk (lines 1062-1086): empty content
on success, the exit code interpolated into the failure message otherwise;
a `wait` error also yields a terminal chunk. -/
def pipeFinalChunk (sid : Str) (w : Except Str ExitStatusM) : StreamChunk :=
  match w with
  | Except.ok status =>
    StreamChunk.mk sid
      (if status.success then []
       else pipeFailPre ++ (toString (status.code.getD (-1))).toList ++ ['\n'])
      true
  | Except.error e =>
    StreamChunk.mk sid (processErrPre ++ e ++ ['\n']) true

-- ## Codex SDK runner path and interleaving model

/-- Model of `CodexSdkBridgeMessage` (cli_commands.rs lines 557-565): one stdout/stderr
line of the runner child, deserialised. -/
structure CodexSdkBridgeMessage where
  session_id : Option Str
  content : Option Str
  error : Option Str
  finished : Bool
deriving DecidableEq

/-- One non-empty line read from the runner child, as the forwarding tasks
see it: either a successfully parsed bridge message or the raw line. -/
inductive BridgeLine where
  | parsed (m : CodexSdkBridgeMessage)
  | unparsed (raw : Str)
deriving DecidableEq

def codexErrPreS : String := "❌ Codex error: "

def codexErrPre : Str := codexErrPreS.toList

/-- Chunks emitted by the stdout forwarding task of `try_spawn_codex_sdk`
for one line (lines 637-671): an error message or a content message is
forwarded with the bridge message's own `finished` flag; an unparsable line
is forwarded raw as a non-terminal chunk. -/
def sdkStdoutChunks (defaultSid : Str) : BridgeLine → List StreamChunk
  | BridgeLine.parsed m =>
    let sid := m.session_id.getD defaultSid
    match m.error with
    | some err => [StreamChunk.mk sid (codexErrPre ++ err ++ ['\n']) m.finished]
    | none =>
      match m.content with
      | some content => [StreamChunk.mk sid content m.finished]
      | none => []
  | BridgeLine.unparsed raw => [StreamChunk.mk defaultSid (raw ++ ['\n']) false]

def sdkStdoutTrace (sid : Str) (lines : List BridgeLine) : List StreamChunk :=
  lines.flatMap (sdkStdoutChunks sid)

/-- Chunks emitted by the stderr forwarding task (lines 679-710): parsed
messages are forwarded only when they carry an error (again with the bridge
`finished` flag); unparsable lines are forwarded raw. -/
def sdkStderrChunks (defaultSid : Str) : BridgeLine → List StreamChunk
  | BridgeLine.parsed m =>
    let sid := m.session_id.getD defaultSid
    match m.error with
    | some err => [StreamChunk.mk sid (codexErrPre ++ err ++ ['\n']) m.finished]
    | none => []
  | BridgeLine.unparsed raw => [StreamChunk.mk defaultSid (raw ++ ['\n']) false]

def sdkStderrTrace (sid : Str) (lines : List BridgeLine) : List StreamChunk :=
  lines.flatMap (sdkStderrChunks sid)

def sdkDoneContent : Str := ['\n', ' ', '\n']

def sdkFailPreS : String := "\n❌ Codex SDK runner exited with status "

def sdkFailPre : Str := sdkFailPreS.toList

/-- The waiter's terminal chunk of the SDK path (lines 713-737): the
whitespace placeholder `"\n \n"` on success, the exit code interpolated into
the failure message otherwise. -/
def sdkFinalChunk (sid : Str) (status : ExitStatusM) : StreamChunk :=
  if status.success then StreamChunk.mk sid sdkDoneContent true
  else
    StreamChunk.mk sid
      (sdkFailPre ++ (toString (status.code.getD (-1))).toList ++ ['\n']) true

/-- Model of `Merge xs ys zs`: `zs` is an order-preserving interleaving of `xs` and
`ys`.  The reader tasks are `tokio::spawn`ed with no synchronisation against
the task awaiting the child, so any interleaving of their emissions with the
waiter's terminal chunk is observable on the `cli-stream` channel. -/
inductive Merge {α : Type} : List α → List α → List α → Prop
  | nil : Merge [] [] []
  | left {x : α} {xs ys zs : List α} : Merge xs ys zs → Merge (x :: xs) ys (x :: zs)
  | right {y : α} {xs ys zs : List α} : Merge xs ys zs → Merge xs (y :: ys) (y :: zs)

/-- Observable `cli-stream` traces of one `try_spawn_codex_sdk` run whose
`child.wait()` returns `Ok(status)`: any interleaving of the two reader
traces, interleaved with the waiter's single terminal chunk. -/
def sdkObservable (sid : Str) (outLines errLines : List BridgeLine)
    (status : ExitStatusM) (tr : List StreamChunk) : Prop :=
  ∃ readers, Merge (sdkStdoutTrace sid outLines) (sdkStderrTrace sid errLines) readers ∧
    Merge readers [sdkFinalChunk sid status] tr

/-- Observable `cli-stream` traces of one pipe-path run (after a successful
spawn): any interleaving of the stdout and stderr reader traces with the
waiter's single terminal chunk. -/
def pipeObservable (agent sid : Str) (outEvents : List ReadEvent)
    (outLines : List Str) (errEvents : List ReadEvent) (errLines : List Str)
    (w : Except Str ExitStatusM) (tr : List StreamChunk) : Prop :=
  ∃ readers,
    Merge (pipeStdoutTrace agent sid outEvents outLines)
      (pipeStderrTrace agent sid errEvents errLines) readers ∧
    Merge readers [pipeFinalChunk sid w] tr

/-- Number of terminal chunks in a trace. -/
def countFinished (tr : List StreamChunk) : Nat :=
  tr.countP (fun c => c.finished)

/-- The bridge message of the counterexample run: content `"x"` with the
`finished` flag set by the runner. -/
def cexBridgeMsg : CodexSdkBridgeMessage := ⟨none, some ['x'], none, true⟩

/-- The observable trace of the counterexample run: the forwarded content
chunk (already terminal), then the waiter's terminal chunk. -/
def cexSdkTrace : List StreamChunk :=
  [StreamChunk.mk ['s'] ['x'] true, sdkFinalChunk ['s'] ⟨true, some 0⟩]

-- Unfolding lemmas for the splitAux scan.

lemma splitAux_nil (cur : Str) : splitAux cur [] = ([], cur.reverse) := rfl

lemma splitAux_cons_sep_nilcur (c : Char) (rest : Str) (h : isSep c = true) :
    splitAux [] (c :: rest) = splitAux [] rest := by
  simp [splitAux, h]

lemma splitAux_cons_sep_conscur (d : Char) (ds : Str) (c : Char) (rest : Str)
    (h : isSep c = true) :
    splitAux (d :: ds) (c :: rest) =
      ((d :: ds).reverse :: (splitAux [] rest).1, (splitAux [] rest).2) := by
  simp [splitAux, h]

lemma splitAux_cons_nonsep (cur : Str) (c : Char) (rest : Str) (h : isSep c = false) :
    splitAux cur (c :: rest) = splitAux (c :: cur) rest := by
  simp [splitAux, h]

/-- The residue kept in the buffer after a scan contains no separators. -/
lemma splitAux_residue_sepFree :
    ∀ (s cur : Str), (∀ c ∈ cur, isSep c = false) →
      ∀ x ∈ (splitAux cur s).2, isSep x = false := by
  intro s
  induction s with
  | nil =>
    intro cur h x hx
    rw [splitAux_nil] at hx
    exact h x (List.mem_reverse.mp hx)
  | cons c rest ih =>
    intro cur h x hx
    by_cases hc : isSep c = true
    · cases cur with
      | nil =>
        rw [splitAux_cons_sep_nilcur _ _ hc] at hx
        exact ih [] (by simp) x hx
      | cons d ds =>
        rw [splitAux_cons_sep_conscur _ _ _ _ hc] at hx
        exact ih [] (by simp) x hx
    · have hc2 : isSep c = false := by simpa using hc
      rw [splitAux_cons_nonsep _ _ _ hc2] at hx
      refine ih (c :: cur) ?_ x hx
      intro y hy
      rcases List.mem_cons.mp hy with rfl | hy2
      · exact hc2
      · exact h y hy2

/-- Scanning `s ++ t` is scanning `s`, then scanning `t` restarted on the
residue (as the current partial segment). -/
lemma splitAux_append :
    ∀ (s cur t : Str),
      splitAux cur (s ++ t) =
        ((splitAux cur s).1 ++ (splitAux (splitAux cur s).2.reverse t).1,
         (splitAux (splitAux cur s).2.reverse t).2) := by
  intro s
  induction s with
  | nil =>
    intro cur t
    simp [splitAux_nil]
  | cons c rest ih =>
    intro cur t
    by_cases hc : isSep c = true
    · cases cur with
      | nil =>
        rw [List.cons_append, splitAux_cons_sep_nilcur _ _ hc,
          splitAux_cons_sep_nilcur _ _ hc, ih]
      | cons d ds =>
        rw [List.cons_append, splitAux_cons_sep_conscur _ _ _ _ hc,
          splitAux_cons_sep_conscur _ _ _ _ hc, ih [] t]
        simp
    · have hc2 : isSep c = false := by simpa using hc
      rw [List.cons_append, splitAux_cons_nonsep _ _ _ hc2,
        splitAux_cons_nonsep _ _ _ hc2, ih]

/-- A separator-free prefix merely reloads the current partial segment. -/
lemma splitAux_restart :
    ∀ (r cur t : Str), (∀ c ∈ r, isSep c = false) →
      splitAux cur (r ++ t) = splitAux (r.reverse ++ cur) t := by
  intro r
  induction r with
  | nil =>
    intro cur t h
    simp
  | cons c r ih =>
    intro cur t h
    have hc : isSep c = false := h c (by simp)
    rw [List.cons_append, splitAux_cons_nonsep _ _ _ hc,
      ih (c :: cur) t (fun y hy => h y (by simp [hy]))]
    simp

lemma pushChunk_nil (acc : CodexStreamAccumulator) : pushChunk acc [] = ([], acc) := rfl

/-- Two consecutive `push_chunk` calls behave like one call on the
concatenation: same records in order, same final buffer. -/
lemma pushChunk_append (acc : CodexStreamAccumulator) (a b : Str) :
    pushChunk acc (a ++ b) =
      ((pushChunk acc a).1 ++ (pushChunk (pushChunk acc a).2 b).1,
       (pushChunk (pushChunk acc a).2 b).2) := by
  by_cases ha : a = []
  · subst ha
    simp [pushChunk_nil]
  · by_cases hb : b = []
    · subst hb
      simp [pushChunk_nil]
    · have ha2 : a.isEmpty = false := by simpa using ha
      have hb2 : b.isEmpty = false := by simpa using hb
      have hab : (a ++ b).isEmpty = false := by simp [ha]
      have hfree : ∀ x ∈ (splitAux [] (acc.buffer ++ a)).2, isSep x = false :=
        splitAux_residue_sepFree _ [] (by simp)
      simp only [pushChunk, ha2, hb2, hab, Bool.false_eq_true, if_false]
      have hassoc : acc.buffer ++ (a ++ b) = (acc.buffer ++ a) ++ b := by
        simp [List.append_assoc]
      rw [hassoc, splitAux_append (acc.buffer ++ a) [] b]
      rw [splitAux_restart _ [] b hfree]
      simp [List.append_nil]

/-- Feeding chunks one at a time equals one `push_chunk` of the
concatenation. -/
lemma pushMany_join :
    ∀ (cs : List Str) (acc : CodexStreamAccumulator),
      pushMany acc cs = pushChunk acc cs.flatten := by
  intro cs
  induction cs with
  | nil =>
    intro acc
    simp [pushMany, pushChunk_nil]
  | cons c cs ih =>
    intro acc
    show (let first := pushChunk acc c
          let rest := pushMany first.2 cs
          (first.1 ++ rest.1, rest.2)) = pushChunk acc (c :: cs).flatten
    rw [List.flatten_cons, pushChunk_append acc c cs.flatten]
    simp [ih]

/-- C3: for every input string and every way of partitioning it into
consecutive chunks, feeding the chunks one at a time to `push_chunk` and then
calling `flush` produces exactly the same record sequence as feeding the
whole string in a single `push_chunk` call followed by `flush`, both runs
starting from a fresh accumulator. -/
theorem C3_accumulator_boundary_correctness (chunks : List Str) :
    runRecords chunks = runRecords [chunks.flatten] := by
  unfold runRecords
  rw [pushMany_join, pushMany_join]
  simp

/-- C10: for every agent string and every line,
`sanitize_cli_output_line(agent, line)` returns either `None` or `Some` of
the input line exactly unchanged; it never returns a modified line. -/
theorem C10_sanitizer_identity_or_none (agent lineIn : Str) :
    sanitize_cli_output_line agent lineIn = none ∨
      sanitize_cli_output_line agent lineIn = some lineIn := by
  unfold sanitize_cli_output_line
  dsimp only
  split_ifs <;> first
  | exact Or.inl rfl
  | exact Or.inr rfl

-- ## Claims about process_segment and flush

lemma isPrefixOf_iff_pfx {a b : Str} : a.isPrefixOf b = true ↔ a <+: b :=
  List.isPrefixOf_iff_prefix

/-- C5: for every segment the accumulator delimits: if the trimmed segment
begins with the prefix `data:`, only the payload after the prefix is emitted,
trimmed, and a payload that is empty or equals the sentinel `[DONE]` is
swallowed; a trimmed segment beginning with `event:` or `id:` is swallowed
entirely. -/
theorem C5_protocol_unwrapping (seg : Str) :
    (dataPfx.isPrefixOf (trimW seg) = true →
      (∀ r ∈ processSegment seg, r = trimW ((trimW seg).drop dataPfx.length)) ∧
      (processSegment seg = [] ↔
        trimW ((trimW seg).drop dataPfx.length) = [] ∨
        eqIgnoreAsciiCase (trimW ((trimW seg).drop dataPfx.length)) doneTok = true)) ∧
    ((eventPfx.isPrefixOf (trimW seg) || idPfx.isPrefixOf (trimW seg)) = true →
      processSegment seg = []) := by
  constructor
  · intro h
    rcases isPrefixOf_iff_pfx.mp h with ⟨t, ht⟩
    have hne : (trimW seg).isEmpty = false := by
      rw [← ht]
      simp [dataPfx]
    unfold processSegment
    dsimp only
    rw [hne, h]
    by_cases hsw : trimW ((trimW seg).drop dataPfx.length) = [] ∨
        eqIgnoreAsciiCase (trimW ((trimW seg).drop dataPfx.length)) doneTok = true
    · have hcond : ((trimW ((trimW seg).drop dataPfx.length)).isEmpty ||
          eqIgnoreAsciiCase (trimW ((trimW seg).drop dataPfx.length)) doneTok) = true := by
        rcases hsw with h1 | h1 <;> simp [h1]
      simp [hne, h, hcond]
      exact hsw
    · have hcond : ((trimW ((trimW seg).drop dataPfx.length)).isEmpty ||
          eqIgnoreAsciiCase (trimW ((trimW seg).drop dataPfx.length)) doneTok) = false := by
        rw [Bool.eq_false_iff]
        intro hc
        rcases Bool.or_eq_true_iff.mp hc with h1 | h1
        · exact hsw (Or.inl (by simpa using h1))
        · exact hsw (Or.inr h1)
      simp [hne, h, hcond]
      push_neg at hsw
      exact ⟨hsw.1, by simpa using hsw.2⟩
  · intro h
    have hnodata : dataPfx.isPrefixOf (trimW seg) = false := by
      rcases Bool.or_eq_true_iff.mp h with h1 | h1 <;>
        rcases isPrefixOf_iff_pfx.mp h1 with ⟨t, ht⟩ <;>
        · rw [Bool.eq_false_iff]
          intro hd
          rcases isPrefixOf_iff_pfx.mp hd with ⟨u, hu⟩
          rw [← ht] at hu
          simp [dataPfx, eventPfx, idPfx] at hu
    have hne : (trimW seg).isEmpty = false := by
      rcases Bool.or_eq_true_iff.mp h with h1 | h1 <;>
        rcases isPrefixOf_iff_pfx.mp h1 with ⟨t, ht⟩ <;>
        · rw [← ht]
          simp [eventPfx, idPfx]
    unfold processSegment
    dsimp only
    simp [hne, hnodata, h]

/-- Closed witness for C5: on the segment `"data: [DONE]"` the record is
swallowed, and on `"event: x"` the segment is swallowed entirely. -/
theorem C5_protocol_unwrapping_witness :
    processSegment ['d', 'a', 't', 'a', ':', ' ', '[', 'D', 'O', 'N', 'E', ']'] = [] ∧
    processSegment ['e', 'v', 'e', 'n', 't', ':', ' ', 'x'] = [] := by
  constructor
  · exact (C5_protocol_unwrapping
      ['d', 'a', 't', 'a', ':', ' ', '[', 'D', 'O', 'N', 'E', ']']).1 (by decide)
      |>.2.mpr (by decide)
  · exact (C5_protocol_unwrapping ['e', 'v', 'e', 'n', 't', ':', ' ', 'x']).2 (by decide)

/-- One segment never yields the empty record: the data branch insists on a
non-empty payload and the default branch on non-whitespace content. -/
lemma processSegment_ne_nil (seg r : Str) (hr : r ∈ processSegment seg) : r ≠ [] := by
  unfold processSegment at hr
  dsimp only at hr
  split_ifs at hr with h1 h2 h3 h4
  · cases hr
  · cases hr
  · rcases List.mem_singleton.mp hr with rfl
    intro hfalse
    rw [hfalse] at h3
    simp at h3
  · cases hr
  · rcases List.mem_singleton.mp hr with rfl
    intro hfalse
    rw [hfalse] at h1
    simp at h1

/-- C6: `push_chunk` never emits an empty record; in particular feeding
`"\r\r\n\r"` to a fresh accumulator yields no records, leaves the buffer
empty, and a subsequent `flush` returns nothing. -/
theorem C6_no_empty_records :
    (∀ (acc : CodexStreamAccumulator) (chunk r : Str),
        r ∈ (pushChunk acc chunk).1 → r ≠ []) ∧
    pushChunk CodexStreamAccumulator.new ['\r', '\r', '\n', '\r'] =
      ([], CodexStreamAccumulator.new) ∧
    flush (pushChunk CodexStreamAccumulator.new ['\r', '\r', '\n', '\r']).2 =
      (none, CodexStreamAccumulator.new) := by
  refine ⟨?_, by decide, by decide⟩
  intro acc chunk r hr
  unfold pushChunk at hr
  split_ifs at hr
  · cases hr
  · dsimp only at hr
    rcases List.mem_flatMap.mp hr with ⟨seg, _, hseg⟩
    exact processSegment_ne_nil seg r hseg

/-- Closed witness for C6: the record `"x"` emitted by `push_chunk("x\n")` is
indeed non-empty. -/
theorem C6_no_empty_records_witness : (['x'] : Str) ≠ [] :=
  C6_no_empty_records.1 CodexStreamAccumulator.new ['x', '\n'] ['x'] (by decide)

/-- C7 counterexample: after `push_chunk(" ")` the internal buffer is the
non-empty string `" "`, yet `flush()` returns `None` (the whitespace-only
segment is dropped), refuting the claim that a non-empty buffer yields `Some`
record. -/
theorem C7_counterexample :
    (pushChunk CodexStreamAccumulator.new [' ']).2.buffer ≠ [] ∧
    (flush (pushChunk CodexStreamAccumulator.new [' ']).2).1 = none := by
  decide

/-- C7 as amended: `flush()` returns nothing when the internal buffer is
empty; on a non-empty buffer it drains the buffer and runs the trailing
unterminated content through the record-processing rules, emitting the
resulting record, which is `None` exactly when that content is swallowed
(whitespace-only, metadata-prefixed, or an empty/sentinel data payload). -/
theorem C7_flush_amended (acc : CodexStreamAccumulator) :
    (acc.buffer = [] → flush acc = (none, acc)) ∧
    (acc.buffer ≠ [] →
      (flush acc).1 = (processSegment acc.buffer).getLast? ∧
      (flush acc).2.buffer = [] ∧
      ((flush acc).1 = none ↔ processSegment acc.buffer = [])) := by
  constructor
  · intro h
    simp [flush, h]
  · intro h
    have h2 : acc.buffer.isEmpty = false := by simpa using h
    refine ⟨by simp [flush, h2], by simp [flush, h2], ?_⟩
    simp only [flush, h2, Bool.false_eq_true, if_false]
    cases hp : processSegment acc.buffer with
    | nil => simp
    | cons a l => simp

/-- Closed witness for C7 (amended): a buffer holding `"hi"` flushes to the
record `"hi"`. -/
theorem C7_flush_amended_witness :
    (flush ⟨['h', 'i']⟩).1 = (processSegment ['h', 'i']).getLast? :=
  ((C7_flush_amended ⟨['h', 'i']⟩).2 (by decide)).1

-- ## Registry lemmas and claims C2, C8

lemma lookupA_eq_none_iff {α : Type} (k : Str) :
    ∀ l : List (Str × α), lookupA k l = none ↔ ∀ p ∈ l, p.1 ≠ k := by
  intro l
  induction l with
  | nil => simp [lookupA]
  | cons p r ih =>
    simp only [lookupA]
    by_cases hp : p.1 = k
    · rw [if_pos hp]
      constructor
      · intro h
        cases h
      · intro h
        exact absurd hp (h p (List.mem_cons_self p r))
    · rw [if_neg hp, ih]
      constructor
      · intro h q hq
        rcases List.mem_cons.mp hq with rfl | hq2
        · exact hp
        · exact h q hq2
      · intro h q hq
        exact h q (List.mem_cons_of_mem p hq)

lemma mem_removeA {α : Type} {p : Str × α} {k : Str} {l : List (Str × α)} :
    p ∈ removeA k l ↔ p ∈ l ∧ p.1 ≠ k := by
  simp [removeA]

lemma lookupA_removeA {α : Type} (k : Str) (l : List (Str × α)) :
    lookupA k (removeA k l) = none := by
  rw [lookupA_eq_none_iff]
  intro p hp
  exact (mem_removeA.mp hp).2

lemma terminate_ok (st : RegistryState) (id : Str) :
    (terminate_session_process st id).1 = Except.ok () := by
  unfold terminate_session_process
  cases lookupA id st.sessions <;> rfl

/-- From the empty registry, every operation is a no-op on the maps. -/
lemma stepOp_init (op : RegistryOp) : stepOp RegistryState.init op = RegistryState.init := by
  cases op <;> rfl

lemma runOps_eq_init (ops : List RegistryOp) : runOps ops = RegistryState.init := by
  suffices h : ∀ (l : List RegistryOp), l.foldl stepOp RegistryState.init = RegistryState.init by
    exact h ops
  intro l
  induction l with
  | nil => rfl
  | cons op l ih => rw [List.foldl_cons, stepOp_init, ih]

/-- C2: no operation ever inserts into the `SESSIONS` or `SESSION_INDEX`
maps (executing a command spawns a child without registering it), so every
reachable registry state has both maps empty; consequently
`get_sessions_status` returns zero total sessions with an empty list, and
`send_quit_to_session` returns `Err` for every session id. -/
theorem C2_registry_never_populated (ops : List RegistryOp) :
    (runOps ops).sessions = [] ∧ (runOps ops).index = [] ∧
    get_sessions_status (runOps ops) = ([], 0) ∧
    ∀ id, (send_quit_to_session (runOps ops) id).1 = Except.error notFoundMsg := by
  rw [runOps_eq_init ops]
  exact ⟨rfl, rfl, rfl, fun id => rfl⟩

/-- C8: for every session id and every registry state,
`terminate_session_by_id` returns `Ok` even when the id is absent (a second
call in a row also returns `Ok`), the id is gone from the sessions map
afterwards (so `list_sessions` no longer includes it, given that stored
sessions carry their own key as id), whereas `send_quit_to_session` returns
`Err` when the id is not present. -/
theorem C8_terminate_idempotent_quit_strict (st : RegistryState) (id : Str) :
    (terminate_session_by_id st id).1 = Except.ok () ∧
    (terminate_session_by_id (terminate_session_by_id st id).2.1 id).1 = Except.ok () ∧
    lookupA id (terminate_session_by_id st id).2.1.sessions = none ∧
    ((∀ p ∈ st.sessions, p.2.session.id = p.1) →
      ∀ s ∈ (get_sessions_status (terminate_session_by_id st id).2.1).1, s.id ≠ id) ∧
    (lookupA id st.sessions = none →
      (send_quit_to_session st id).1 = Except.error notFoundMsg) := by
  have hstate : (terminate_session_by_id st id).2.1.sessions = st.sessions ∨
      (terminate_session_by_id st id).2.1.sessions = removeA id st.sessions := by
    unfold terminate_session_by_id terminate_session_process
    cases h : lookupA id st.sessions with
    | none => exact Or.inl rfl
    | some s => exact Or.inr rfl
  have habsent : lookupA id (terminate_session_by_id st id).2.1.sessions = none := by
    unfold terminate_session_by_id terminate_session_process
    cases h : lookupA id st.sessions with
    | none => exact h
    | some s => exact lookupA_removeA id st.sessions
  refine ⟨terminate_ok st id, terminate_ok _ id, habsent, ?_, ?_⟩
  · intro hwf s hs hsid
    have hmem : s ∈ (terminate_session_by_id st id).2.1.sessions.map
        (fun p => p.2.session) := hs
    rcases List.mem_map.mp hmem with ⟨p, hp, hps⟩
    have hp0 : p ∈ st.sessions := by
      rcases hstate with hcase | hcase
      · rw [hcase] at hp
        exact hp
      · rw [hcase] at hp
        exact (mem_removeA.mp hp).1
    have hkey : p.1 = id := by rw [← hwf p hp0, hps, hsid]
    exact (lookupA_eq_none_iff id _).mp habsent p hp hkey
  · intro h
    unfold send_quit_to_session
    rw [h]

/-- Closed witness for C8: from the empty registry, quitting the unknown
session `"a"` errors with `"Session not found"`. -/
theorem C8_terminate_idempotent_quit_strict_witness :
    (send_quit_to_session RegistryState.init ['a']).1 = Except.error notFoundMsg :=
  (C8_terminate_idempotent_quit_strict RegistryState.init ['a']).2.2.2.2 rfl

-- ## C9: the lifecycle sweep

lemma lookupA_removeA_ne {α : Type} {k j : Str} (h : k ≠ j) :
    ∀ l : List (Str × α), lookupA k (removeA j l) = lookupA k l := by
  intro l
  induction l with
  | nil => rfl
  | cons p r ih =>
    by_cases hp : p.1 = j
    · have hrm : removeA j (p :: r) = removeA j r := by
        simp [removeA, hp]
      have hpk : ¬(p.1 = k) := by
        rw [hp]
        exact fun hh => h hh.symm
      rw [hrm, ih]
      simp [lookupA, hpk]
    · have hrm : removeA j (p :: r) = p :: removeA j r := by
        simp [removeA, hp]
      rw [hrm]
      simp only [lookupA]
      by_cases hpk : p.1 = k
      · simp [hpk]
      · simp [hpk, ih]

lemma lookupA_some_of_mem_nodup {α : Type} {l : List (Str × α)} {p : Str × α}
    (hnd : (l.map (fun q => q.1)).Nodup) (hp : p ∈ l) : lookupA p.1 l = some p.2 := by
  induction l with
  | nil => cases hp
  | cons q r ih =>
    rw [List.map_cons, List.nodup_cons] at hnd
    rcases List.mem_cons.mp hp with rfl | hp2
    · simp [lookupA]
    · have hq : ¬(q.1 = p.1) := by
        intro he
        exact hnd.1 (he ▸ List.mem_map_of_mem (fun x => x.1) hp2)
      simp only [lookupA]
      rw [if_neg hq]
      exact ih hnd.2 hp2

/-- Closed form for the sweep's fold over the expired ids: provided the
expired entries have distinct ids and are each retrievable from the state,
terminating them one after another removes exactly their ids from the
sessions map and their `agent:working_dir` keys from the index, emitting each
entry's quit/kill actions in order. -/
lemma cleanup_fold_closed :
    ∀ (el : List (Str × ActiveSession)) (st : RegistryState) (acts : List SessionAction),
      (el.map (fun p => p.1)).Nodup →
      (∀ p ∈ el, lookupA p.1 st.sessions = some p.2) →
      ((el.map (fun p => p.1)).foldl
        (fun acc id =>
          let step := terminate_session_process acc.1 id
          (step.2.1, acc.2 ++ step.2.2))
        (st, acts)) =
      (⟨(el.map (fun p => p.1)).foldl (fun ss k => removeA k ss) st.sessions,
        (el.map keyOfEntry).foldl (fun ii k => removeA k ii) st.index⟩,
       acts ++ el.flatMap quitKillActs) := by
  intro el
  induction el with
  | nil =>
    intro st acts _ _
    simp
  | cons e el ih =>
    intro st acts hnd hlk
    rw [List.map_cons, List.nodup_cons] at hnd
    have he : lookupA e.1 st.sessions = some e.2 := hlk e (List.mem_cons_self e el)
    have hterm : terminate_session_process st e.1 =
        (Except.ok (), ⟨removeA e.1 st.sessions, removeA (keyOfEntry e) st.index⟩,
         quitKillActs e) := by
      unfold terminate_session_process
      rw [he]
      rfl
    have hlk2 : ∀ p ∈ el, lookupA p.1 (removeA e.1 st.sessions) = some p.2 := by
      intro p hp
      have hne : p.1 ≠ e.1 := by
        intro heq
        exact hnd.1 (heq ▸ List.mem_map_of_mem (fun x => x.1) hp)
      rw [lookupA_removeA_ne hne]
      exact hlk p (List.mem_cons_of_mem e hp)
    simp only [List.map_cons, List.foldl_cons, hterm]
    rw [ih ⟨removeA e.1 st.sessions, removeA (keyOfEntry e) st.index⟩
      (acts ++ quitKillActs e) hnd.2 hlk2]
    simp [List.append_assoc]

lemma foldl_removeA_filter {α : Type} :
    ∀ (ks : List Str) (l : List (Str × α)),
      ks.foldl (fun acc k => removeA k acc) l = l.filter (fun p => decide (p.1 ∉ ks)) := by
  intro ks
  induction ks with
  | nil =>
    intro l
    simp
  | cons k ks ih =>
    intro l
    simp only [List.foldl_cons]
    rw [ih (removeA k l)]
    unfold removeA
    rw [List.filter_filter]
    apply List.filter_congr
    intro p _
    by_cases h1 : p.1 = k <;> by_cases h2 : p.1 ∈ ks <;> simp [h1, h2]

/-- C9 counterexample: sweeping `cexSweepState` at `t = 10000` terminates
only the expired session `A`, yet it removes the index entry that maps the
shared key to the non-expired session `B` (so `B` is not left in both maps),
and, because `A` has no stdin channel, kills `A`'s process without first
sending the agent quit command. -/
theorem C9_counterexample :
    isExpired 10000 (['A'], sessExpiredA) = true ∧
    isExpired 10000 (['B'], sessFreshB) = false ∧
    lookupA ['B'] cexSweepState.sessions = some sessFreshB ∧
    lookupA sweepKey cexSweepState.index = some ['B'] ∧
    lookupA ['B'] (cleanup_inactive_sessions cexSweepState 10000).2.1.sessions =
      some sessFreshB ∧
    (cleanup_inactive_sessions cexSweepState 10000).2.1.index = [] ∧
    (cleanup_inactive_sessions cexSweepState 10000).2.2 = [SessionAction.kill ['A']] := by
  decide

/-- C9 as amended: a sweep at time `t` (on a registry whose session ids are
distinct) removes from `SESSIONS` exactly the sessions whose `last_activity`
is more than 1800 seconds before `t`; for each such session it sends the
agent quit command before the kill when an stdin channel exists, and only
kills otherwise; every non-expired session stays in `SESSIONS`, but an index
entry survives only if its key is not the `agent:working_dir` key of some
expired session; individual terminations always report success, so no
expired session can prevent removal of the others. -/
theorem C9_cleanup_sweep_amended (st : RegistryState) (t : Int)
    (hnd : (st.sessions.map (fun p => p.1)).Nodup) :
    (cleanup_inactive_sessions st t).1 = Except.ok () ∧
    (cleanup_inactive_sessions st t).2.1.sessions =
      st.sessions.filter (fun p => !isExpired t p) ∧
    (cleanup_inactive_sessions st t).2.1.index =
      st.index.filter (fun e =>
        decide (e.1 ∉ (st.sessions.filter (isExpired t)).map keyOfEntry)) ∧
    (cleanup_inactive_sessions st t).2.2 =
      (st.sessions.filter (isExpired t)).flatMap quitKillActs := by
  have hndel : ((st.sessions.filter (isExpired t)).map (fun p => p.1)).Nodup :=
    List.Nodup.sublist (List.Sublist.map _ (List.filter_sublist _)) hnd
  have hlk : ∀ p ∈ st.sessions.filter (isExpired t),
      lookupA p.1 st.sessions = some p.2 := by
    intro p hp
    exact lookupA_some_of_mem_nodup hnd (List.mem_of_mem_filter hp)
  have hfold := cleanup_fold_closed (st.sessions.filter (isExpired t)) st [] hndel hlk
  unfold cleanup_inactive_sessions
  dsimp only
  rw [hfold]
  refine ⟨rfl, ?_, ?_, by simp⟩
  · dsimp only
    rw [foldl_removeA_filter]
    apply List.filter_congr
    intro p hp
    by_cases hexp : isExpired t p = true
    · have hmem : p.1 ∈ (st.sessions.filter (isExpired t)).map (fun q => q.1) :=
        List.mem_map_of_mem _ (List.mem_filter.mpr ⟨hp, hexp⟩)
      simp [hmem, hexp]
    · have hmem : p.1 ∉ (st.sessions.filter (isExpired t)).map (fun q => q.1) := by
        intro hin
        rcases List.mem_map.mp hin with ⟨q, hq, hq1⟩
        have hq2 : q ∈ st.sessions := List.mem_of_mem_filter hq
        have : q = p := List.inj_on_of_nodup_map hnd hq2 hp hq1
        exact hexp (this ▸ (List.mem_filter.mp hq).2)
      simp [hmem, hexp]
  · dsimp only
    rw [foldl_removeA_filter]

/-- Closed witness for C9 (amended): evaluating the sweep characterisation on
the concrete two-session registry. -/
theorem C9_cleanup_sweep_amended_witness :
    (cleanup_inactive_sessions cexSweepState 10000).2.1.sessions =
      cexSweepState.sessions.filter (fun p => !isExpired 10000 p) :=
  (C9_cleanup_sweep_amended cexSweepState 10000 (by decide)).2.1

-- ## C1: terminal-chunk behaviour

lemma merge_countP {α : Type} (p : α → Bool) :
    ∀ {xs ys zs : List α}, Merge xs ys zs →
      zs.countP p = xs.countP p + ys.countP p := by
  intro xs ys zs h
  induction h with
  | nil => simp
  | left h ih =>
    simp only [List.countP_cons, ih]
    omega
  | right h ih =>
    simp only [List.countP_cons, ih]
    omega

lemma ptyLoop_not_finished :
    ∀ (events : List ReadEvent) (agent sid : Str) (acc : CodexStreamAccumulator)
      (c : StreamChunk), c ∈ (ptyLoop agent sid acc events).1 → c.finished = false := by
  intro events
  induction events with
  | nil =>
    intro agent sid acc c hc
    simp [ptyLoop] at hc
  | cons ev rest ih =>
    intro agent sid acc c hc
    cases ev with
    | chunk text =>
      by_cases hx : eqIgnoreAsciiCase agent codexAgent = true
      · simp only [ptyLoop, hx, if_true] at hc
        rcases List.mem_append.mp hc with hm | hm
        · rcases List.mem_filterMap.mp hm with ⟨seg, _, hf⟩
          rcases Option.map_eq_some'.mp hf with ⟨f, _, rfl⟩
          rfl
        · exact ih agent sid _ c hm
      · simp only [ptyLoop, hx, Bool.false_eq_true, if_false] at hc
        rcases List.mem_append.mp hc with hm | hm
        · rcases List.mem_filterMap.mp hm with ⟨ln, _, hf⟩
          by_cases ht : (trimEndSeps ln).isEmpty = true
          · rw [if_pos ht] at hf
            cases hf
          · rw [if_neg ht] at hf
            rcases Option.map_eq_some'.mp hf with ⟨f, _, rfl⟩
            rfl
        · exact ih agent sid _ c hm
    | ioError msg =>
      simp only [ptyLoop] at hc
      rcases List.mem_singleton.mp hc with rfl
      rfl

lemma ptyTrace_flushed_not_finished (agent sid : Str)
    (events : List ReadEvent) (success : Bool) (c : StreamChunk)
    (hc : c ∈ ptyTrace agent sid events success) :
    c.finished = false ∨ c = ptyFinalChunk sid success := by
  unfold ptyTrace at hc
  dsimp only at hc
  rcases List.mem_append.mp hc with hm | hm
  · rcases List.mem_append.mp hm with hm2 | hm2
    · exact Or.inl (ptyLoop_not_finished events agent sid _ c hm2)
    · left
      by_cases hx : eqIgnoreAsciiCase agent codexAgent = true
      · rw [if_pos hx] at hm2
        rcases hrem : (flush (ptyLoop agent sid CodexStreamAccumulator.new events).2).1 with _ | rem
        · rw [hrem] at hm2
          cases hm2
        · rw [hrem] at hm2
          dsimp only at hm2
          rcases hsan : sanitize_cli_output_line agent rem with _ | f
          · rw [hsan] at hm2
            cases hm2
          · rw [hsan] at hm2
            rcases List.mem_singleton.mp hm2 with rfl
            rfl
      · rw [if_neg hx] at hm2
        cases hm2
  · exact Or.inr (List.mem_singleton.mp hm)

lemma countP_eq_zero_of_all_false {l : List StreamChunk}
    (h : ∀ c ∈ l, c.finished = false) : l.countP (fun c => c.finished) = 0 := by
  rw [List.countP_eq_zero]
  intro c hc
  simp [h c hc]

lemma ptyTrace_count (agent sid : Str) (events : List ReadEvent) (success : Bool) :
    countFinished (ptyTrace agent sid events success) = 1 := by
  unfold countFinished ptyTrace
  dsimp only
  rw [List.countP_append, List.countP_append]
  have h1 : (ptyLoop agent sid CodexStreamAccumulator.new events).1.countP
      (fun c => c.finished) = 0 :=
    countP_eq_zero_of_all_false (fun c hc => ptyLoop_not_finished events agent sid _ c hc)
  have h2 : (if eqIgnoreAsciiCase agent codexAgent then
      match (flush (ptyLoop agent sid CodexStreamAccumulator.new events).2).1 with
      | some rem =>
        match sanitize_cli_output_line agent rem with
        | some f => [StreamChunk.mk sid f false]
        | none => []
      | none => []
    else []).countP (fun c => c.finished) = 0 := by
    apply countP_eq_zero_of_all_false
    intro c hc
    by_cases hx : eqIgnoreAsciiCase agent codexAgent = true
    · rw [if_pos hx] at hc
      rcases hrem : (flush (ptyLoop agent sid CodexStreamAccumulator.new events).2).1 with _ | rem
      · rw [hrem] at hc
        cases hc
      · rw [hrem] at hc
        dsimp only at hc
        rcases hsan : sanitize_cli_output_line agent rem with _ | f
        · rw [hsan] at hc
          cases hc
        · rw [hsan] at hc
          rcases List.mem_singleton.mp hc with rfl
          rfl
    · rw [if_neg hx] at hc
      cases hc
  rw [h1, h2]
  simp [ptyFinalChunk]

lemma ptyTrace_last (agent sid : Str) (events : List ReadEvent) (success : Bool) :
    (ptyTrace agent sid events success).getLast? = some (ptyFinalChunk sid success) := by
  unfold ptyTrace
  dsimp only
  exact List.getLast?_concat _

lemma pipeOutFlush_not_finished (agent sid : Str) (acc : CodexStreamAccumulator)
    (c : StreamChunk) (hc : c ∈ pipeOutFlush agent sid acc) : c.finished = false := by
  unfold pipeOutFlush at hc
  rcases hrem : (flush acc).1 with _ | rem
  · rw [hrem] at hc
    cases hc
  · rw [hrem] at hc
    dsimp only at hc
    rcases hsan : sanitize_cli_output_line agent rem with _ | f
    · rw [hsan] at hc
      cases hc
    · rw [hsan] at hc
      rcases List.mem_singleton.mp hc with rfl
      rfl

lemma pipeErrFlush_not_finished (agent sid : Str) (acc : CodexStreamAccumulator)
    (c : StreamChunk) (hc : c ∈ pipeErrFlush agent sid acc) : c.finished = false := by
  unfold pipeErrFlush at hc
  rcases hrem : (flush acc).1 with _ | rem
  · rw [hrem] at hc
    cases hc
  · rw [hrem] at hc
    dsimp only at hc
    rcases hsan : sanitize_cli_output_line agent rem with _ | f
    · rw [hsan] at hc
      cases hc
    · rw [hsan] at hc
      rcases List.mem_singleton.mp hc with rfl
      rfl

lemma pipeOutCodex_not_finished :
    ∀ (events : List ReadEvent) (agent sid : Str) (acc : CodexStreamAccumulator)
      (c : StreamChunk), c ∈ pipeOutCodex agent sid acc events → c.finished = false := by
  intro events
  induction events with
  | nil =>
    intro agent sid acc c hc
    unfold pipeOutCodex at hc
    exact pipeOutFlush_not_finished agent sid acc c hc
  | cons ev rest ih =>
    intro agent sid acc c hc
    cases ev with
    | chunk text =>
      simp only [pipeOutCodex] at hc
      rcases List.mem_append.mp hc with hm | hm
      · rcases List.mem_filterMap.mp hm with ⟨seg, _, hf⟩
        rcases Option.map_eq_some'.mp hf with ⟨f, _, rfl⟩
        rfl
      · exact ih agent sid _ c hm
    | ioError msg =>
      simp only [pipeOutCodex] at hc
      rcases List.mem_cons.mp hc with rfl | hm
      · rfl
      · exact pipeOutFlush_not_finished agent sid acc c hm

lemma pipeErrCodex_not_finished :
    ∀ (events : List ReadEvent) (agent sid : Str) (acc : CodexStreamAccumulator)
      (c : StreamChunk), c ∈ pipeErrCodex agent sid acc events → c.finished = false := by
  intro events
  induction events with
  | nil =>
    intro agent sid acc c hc
    unfold pipeErrCodex at hc
    exact pipeErrFlush_not_finished agent sid acc c hc
  | cons ev rest ih =>
    intro agent sid acc c hc
    cases ev with
    | chunk text =>
      simp only [pipeErrCodex] at hc
      rcases List.mem_append.mp hc with hm | hm
      · rcases List.mem_filterMap.mp hm with ⟨seg, _, hf⟩
        rcases Option.map_eq_some'.mp hf with ⟨f, _, rfl⟩
        rfl
      · exact ih agent sid _ c hm
    | ioError msg =>
      simp only [pipeErrCodex] at hc
      rcases List.mem_cons.mp hc with rfl | hm
      · rfl
      · exact pipeErrFlush_not_finished agent sid acc c hm

lemma pipeStdoutTrace_not_finished (agent sid : Str) (events : List ReadEvent)
    (lines : List Str) (c : StreamChunk)
    (hc : c ∈ pipeStdoutTrace agent sid events lines) : c.finished = false := by
  unfold pipeStdoutTrace at hc
  by_cases hx : eqIgnoreAsciiCase agent codexAgent = true
  · rw [if_pos hx] at hc
    exact pipeOutCodex_not_finished events agent sid _ c hc
  · rw [if_neg hx] at hc
    rcases List.mem_filterMap.mp hc with ⟨ln, _, hf⟩
    rcases Option.map_eq_some'.mp hf with ⟨f, _, rfl⟩
    rfl

lemma pipeStderrTrace_not_finished (agent sid : Str) (events : List ReadEvent)
    (lines : List Str) (c : StreamChunk)
    (hc : c ∈ pipeStderrTrace agent sid events lines) : c.finished = false := by
  unfold pipeStderrTrace at hc
  by_cases hx : eqIgnoreAsciiCase agent codexAgent = true
  · rw [if_pos hx] at hc
    exact pipeErrCodex_not_finished events agent sid _ c hc
  · rw [if_neg hx] at hc
    rcases List.mem_filterMap.mp hc with ⟨ln, _, hf⟩
    rcases Option.map_eq_some'.mp hf with ⟨f, _, rfl⟩
    rfl

lemma pipeFinalChunk_finished (sid : Str) (w : Except Str ExitStatusM) :
    (pipeFinalChunk sid w).finished = true := by
  cases w <;> rfl

/-- C1 counterexample: on the Codex SDK path, a run whose runner emits one
stdout line `{"content":"x","finished":true}` and whose child then exits
successfully can be observed as a trace with two `finished = true` chunks
(the forwarder copies the bridge message's `finished` flag, lines 654-660,
and the waiter emits its own terminal chunk, lines 713-723), the first of
them before the exit status is known — refuting both the uniqueness and the
last-position guarantee. -/
theorem C1_counterexample :
    sdkObservable ['s'] [BridgeLine.parsed cexBridgeMsg] [] ⟨true, some 0⟩ cexSdkTrace ∧
    countFinished cexSdkTrace = 2 := by
  constructor
  · refine ⟨[StreamChunk.mk ['s'] ['x'] true], ?_, ?_⟩
    · exact Merge.left Merge.nil
    · exact Merge.left (Merge.right Merge.nil)
  · rfl

/-- C1 as amended: on the PTY path every completed run emits exactly one
`finished = true` chunk, it is the last chunk of the trace, and it is the
terminal chunk built from the exit status; on the pipe path every observable
trace of a completed run contains exactly one `finished = true` chunk (the
waiter's, emitted after the exit status is known), though the unsynchronised
reader tasks may still be observed after it; the Codex SDK path offers
neither guarantee (see the counterexample). -/
theorem C1_terminal_chunk_amended :
    (∀ (agent sid : Str) (events : List ReadEvent) (success : Bool),
      countFinished (ptyTrace agent sid events success) = 1 ∧
      (ptyTrace agent sid events success).getLast? = some (ptyFinalChunk sid success) ∧
      (ptyFinalChunk sid success).finished = true) ∧
    (∀ (agent sid : Str) (outEvents errEvents : List ReadEvent)
        (outLines errLines : List Str) (w : Except Str ExitStatusM)
        (tr : List StreamChunk),
      pipeObservable agent sid outEvents outLines errEvents errLines w tr →
      countFinished tr = 1) := by
  constructor
  · intro agent sid events success
    exact ⟨ptyTrace_count agent sid events success,
      ptyTrace_last agent sid events success, rfl⟩
  · intro agent sid outEvents errEvents outLines errLines w tr hobs
    rcases hobs with ⟨readers, h1, h2⟩
    have hro : readers.countP (fun c => c.finished) = 0 := by
      rw [merge_countP _ h1,
        countP_eq_zero_of_all_false
          (fun c hc => pipeStdoutTrace_not_finished agent sid outEvents outLines c hc),
        countP_eq_zero_of_all_false
          (fun c hc => pipeStderrTrace_not_finished agent sid errEvents errLines c hc)]
    have htr := merge_countP (fun c => c.finished) h2
    unfold countFinished
    rw [htr, hro]
    simp [pipeFinalChunk_finished]

/-- Closed witness for C1 (amended): the observable pipe-path trace in which
the terminal chunk is the only emission has exactly one terminal chunk. -/
theorem C1_terminal_chunk_amended_witness :
    countFinished [pipeFinalChunk ['s'] (Except.ok ⟨true, some 0⟩)] = 1 :=
  C1_terminal_chunk_amended.2 ['t'] ['s'] [] [] [] []
    (Except.ok ⟨true, some 0⟩) [pipeFinalChunk ['s'] (Except.ok ⟨true, some 0⟩)]
    ⟨[], Merge.nil, Merge.right Merge.nil⟩

-- ## C4: content of the terminal chunk

/-- C4 counterexample: on the Codex SDK path a successful exit produces the
terminal chunk content `"\n \n"`, not the empty string; and the PTY path's
failure summary is a constant without a single digit, so it cannot report any
exit code. -/
theorem C4_counterexample :
    (sdkFinalChunk ['s'] ⟨true, some 0⟩).content ≠ [] ∧
    (ptyFinalChunk ['s'] false).content.any (fun c => c.isDigit) = false := by
  decide

/-- C4 as amended: the terminal chunk is always `finished = true`; on
success its content is empty on the pipe and PTY paths but is the whitespace
placeholder `"\n \n"` on the SDK path; on a non-zero exit the pipe and SDK
paths interpolate the exit code (`unwrap_or(-1)`) into their failure
summaries, while the PTY path emits a fixed failure message that does not
contain the exit code. -/
theorem C4_terminal_content_amended (sid : Str) (status : ExitStatusM) :
    ((pipeFinalChunk sid (Except.ok status)).finished = true ∧
     (ptyFinalChunk sid status.success).finished = true ∧
     (sdkFinalChunk sid status).finished = true) ∧
    (status.success = true →
      (pipeFinalChunk sid (Except.ok status)).content = [] ∧
      (ptyFinalChunk sid true).content = [] ∧
      (sdkFinalChunk sid status).content = sdkDoneContent) ∧
    (status.success = false →
      (pipeFinalChunk sid (Except.ok status)).content =
        pipeFailPre ++ (toString (status.code.getD (-1))).toList ++ ['\n'] ∧
      (toString (status.code.getD (-1))).toList <:+:
        (pipeFinalChunk sid (Except.ok status)).content ∧
      (ptyFinalChunk sid false).content = ptyFailContent ∧
      (sdkFinalChunk sid status).content =
        sdkFailPre ++ (toString (status.code.getD (-1))).toList ++ ['\n'] ∧
      (toString (status.code.getD (-1))).toList <:+:
        (sdkFinalChunk sid status).content) := by
  refine ⟨⟨rfl, rfl, ?_⟩, ?_, ?_⟩
  · unfold sdkFinalChunk
    by_cases hs : status.success = true
    · rw [if_pos hs]
    · rw [if_neg hs]
  · intro hs
    refine ⟨?_, rfl, ?_⟩
    · simp [pipeFinalChunk, hs]
    · simp [sdkFinalChunk, hs]
  · intro hs
    refine ⟨?_, ?_, rfl, ?_, ?_⟩
    · simp [pipeFinalChunk, hs]
    · refine ⟨pipeFailPre, ['\n'], ?_⟩
      simp [pipeFinalChunk, hs]
    · simp [sdkFinalChunk, hs]
    · refine ⟨sdkFailPre, ['\n'], ?_⟩
      simp [sdkFinalChunk, hs]

/-- Closed witness for C4 (amended): for exit code 7 the pipe path's terminal
content contains the digit string `"7"`. -/
theorem C4_terminal_content_amended_witness :
    (toString ((some (7 : Int)).getD (-1))).toList <:+:
      (pipeFinalChunk ['s'] (Except.ok ⟨false, some 7⟩)).content :=
  ((C4_terminal_content_amended ['s'] ⟨false, some 7⟩).2.2 rfl).2.1
